import Mathlib

/-!
Verification of the worker-pool core of the Goodenough-hub/WebServer
repository (src/webserver/threadpool.h and src/webserver/locker.h).

The pool is a C++ template class `threadpool<T>` holding
  * `m_max_requests : int`   — queue capacity, fixed at construction,
  * `m_workqueue : std::list<T*>` — FIFO queue of task pointers,
  * `m_queuestat : sem`      — counting semaphore (initialised to 0),
  * `m_stop : bool`          — shutdown flag,
with `append` (submit) and a per-worker dispatch loop `run`.

We embed the pool shallowly.  A task pointer `T*` becomes `Option τ`
(`none` is the null pointer).  The mutex `m_queuelocker` serialises all
queue accesses in the source, so each mutex-protected operation
(`append`, and one iteration of the dispatch loop together with the
`sem_wait` that precedes it) is modelled as one atomic step; states of
the transition system are the quiescent states outside the critical
sections.  The constructor rejects non-positive capacities, so in every
constructed pool `m_max_requests` is positive and the C++ comparison
`m_workqueue.size() >= m_max_requests` (size_t vs int) agrees with the
comparison of the exact natural numbers used here; we therefore store
the capacity as `Nat`.
-/

/-- Pool state: the fields of `threadpool<T>` that the queue logic reads
and writes (threadpool.h lines 34-55).  `m_threads`/`m_thread_number`
only carry thread identities and are not part of the queue discipline. -/
structure Pool (τ : Type) where
  m_max_requests : Nat
  m_workqueue : List (Option τ)
  m_queuestat : Nat
  m_stop : Bool
deriving Repr, DecidableEq

/-- `threadpool<T>::append` (threadpool.h lines 131-154): lock; if
`m_workqueue.size() >= m_max_requests` unlock and return false;
otherwise `push_back(request)`, unlock, `m_queuestat.post()` (the
semaphore gains one), and return true.  The returned Bool is the
function's return value. -/
def append {τ : Type} (s : Pool τ) (request : Option τ) : Bool × Pool τ :=
  if s.m_workqueue.length ≥ s.m_max_requests then
    (false, s)
  else
    (true, { s with
               m_workqueue := s.m_workqueue ++ [request],
               m_queuestat := s.m_queuestat + 1 })

/-- What one iteration of the dispatch loop did to the queue. -/
inductive DispatchResult (τ : Type) where
  | emptyQueue : DispatchResult τ
  | nullSkipped : DispatchResult τ
  | ran : τ → DispatchResult τ
deriving Repr, DecidableEq

/-- One iteration of `threadpool<T>::run` (threadpool.h lines 194-225)
after `m_queuestat.wait()` has returned: the wait decrements the
semaphore; then lock; if the queue is empty, unlock and continue;
otherwise take `front()`, `pop_front()`, unlock; if the pointer is null,
continue; otherwise call `request->process()`.  The caller of this
function must ensure `0 < m_queuestat`, since `sem_wait` only returns
when the count is positive. -/
def dispatchIter {τ : Type} (s : Pool τ) : Pool τ × DispatchResult τ :=
  match s.m_workqueue with
  | [] => ({ s with m_queuestat := s.m_queuestat - 1 }, .emptyQueue)
  | none :: rest =>
      ({ s with m_workqueue := rest, m_queuestat := s.m_queuestat - 1 },
       .nullSkipped)
  | some t :: rest =>
      ({ s with m_workqueue := rest, m_queuestat := s.m_queuestat - 1 },
       .ran t)

/-- The handle removed from the queue by a dispatch iteration, if any. -/
def dequeuedOf {τ : Type} : DispatchResult τ → List (Option τ)
  | .emptyQueue => []
  | .nullSkipped => [none]
  | .ran t => [some t]

/-- The task whose `process()` the iteration ran, if any. -/
def executedOf {τ : Type} : DispatchResult τ → List τ
  | .emptyQueue => []
  | .nullSkipped => []
  | .ran t => [t]

/-- The single error the constructor can raise at its parameter check:
`throw std::exception()` when `thread_number <= 0 || max_requests <= 0`
(threadpool.h lines 63-65); the spec names this error `ConfigError`. -/
inductive CtorError where
  | configError : CtorError
deriving Repr, DecidableEq

/-- `threadpool<T>::threadpool` (threadpool.h lines 59-117), up to the
point where worker threads start running: the parameter check throws
before any thread is created; on success the member initialisers give an
empty queue, a semaphore at 0 (`sem()` initialises to 0, locker.h line
147) and `m_stop = false`, and the loop creates `thread_number` threads.
The second component counts the `pthread_create` calls made, so that "no
worker threads are created" on the error path is visible in the model.
Failure of `pthread_create`/`pthread_detach` themselves (a resource
fault of the OS) is outside this model. -/
def threadpoolNew (τ : Type) (thread_number max_requests : Int) :
    Except CtorError (Pool τ) × Nat :=
  if thread_number ≤ 0 ∨ max_requests ≤ 0 then
    (.error .configError, 0)
  else
    (.ok { m_max_requests := max_requests.toNat,
           m_workqueue := [],
           m_queuestat := 0,
           m_stop := false }, thread_number.toNat)

/-- `threadpool<T>::~threadpool` (threadpool.h lines 120-127): frees the
thread array and sets `m_stop` to true. -/
def destroyPool {τ : Type} (s : Pool τ) : Pool τ :=
  { s with m_stop := true }

/-!
System states: the pool together with the trace bookkeeping needed to
state exactly-once and FIFO properties — the handles accepted by
`append` in acceptance order, the handles removed from the queue in
removal order, and the tasks actually executed (those whose `process()`
ran) in execution order.
-/

/-- A pool state plus the observable history of accepted, dequeued and
executed tasks. -/
structure Sys (τ : Type) where
  pool : Pool τ
  accepted : List (Option τ)
  dequeued : List (Option τ)
  executed : List τ
deriving Repr, DecidableEq

/-- The system state right after the constructor returns. -/
def initSys (τ : Type) (maxRequests : Nat) : Sys τ :=
  { pool := { m_max_requests := maxRequests,
              m_workqueue := [],
              m_queuestat := 0,
              m_stop := false },
    accepted := [], dequeued := [], executed := [] }

/-- Effect of one `append` call on the system state: the pool is updated
by `append`, and the handle is recorded as accepted exactly when the
call returned true. -/
def submitSys {τ : Type} (σ : Sys τ) (t : Option τ) : Sys τ :=
  let r := append σ.pool t
  { σ with
      pool := r.2,
      accepted := if r.1 then σ.accepted ++ [t] else σ.accepted }

/-- Effect of one dispatch-loop iteration on the system state. -/
def dispatchSys {τ : Type} (σ : Sys τ) : Sys τ :=
  let r := dispatchIter σ.pool
  { pool := r.1,
    accepted := σ.accepted,
    dequeued := σ.dequeued ++ dequeuedOf r.2,
    executed := σ.executed ++ executedOf r.2 }

/-- Interleaved execution: at each step either some producer thread runs
`append` (with any handle, null included), or some worker thread that
has passed `m_queuestat.wait()` — which requires a positive semaphore
count — runs one iteration of the dispatch loop. -/
inductive SysStep {τ : Type} : Sys τ → Sys τ → Prop where
  | submit (σ : Sys τ) (t : Option τ) : SysStep σ (submitSys σ t)
  | dispatch (σ : Sys τ) : 0 < σ.pool.m_queuestat → SysStep σ (dispatchSys σ)

/-- States reachable from a freshly constructed pool with capacity
`maxRequests` by submit and dispatch steps. -/
inductive Reach (τ : Type) (maxRequests : Nat) : Sys τ → Prop where
  | init : Reach τ maxRequests (initSys τ maxRequests)
  | step {σ σ' : Sys τ} : Reach τ maxRequests σ → SysStep σ σ' →
      Reach τ maxRequests σ'

/-- The inductive invariant of the pool: the accepted handles split into
the dequeued prefix followed by the current queue contents; the executed
tasks are exactly the non-null dequeued handles in order; the semaphore
count equals the queue length; and the queue never exceeds capacity. -/
def SysInv {τ : Type} (maxRequests : Nat) (σ : Sys τ) : Prop :=
  σ.accepted = σ.dequeued ++ σ.pool.m_workqueue ∧
  σ.executed = σ.dequeued.filterMap id ∧
  σ.pool.m_queuestat = σ.pool.m_workqueue.length ∧
  σ.pool.m_workqueue.length ≤ σ.pool.m_max_requests ∧
  σ.pool.m_max_requests = maxRequests

/-!
Worker control flow.  `run` (threadpool.h lines 185-228) is
`while (!m_stop) { m_queuestat.wait(); <iteration body> }`: the stop
flag is read exactly once per circuit, at the loop head, and the body
runs to completion (a `continue` or a `process()` call) before the flag
is read again.  We model a single worker's position as a program
counter: at the loop head, blocked in / about to return from
`m_queuestat.wait()`, or terminated.
-/

/-- Program counter of one worker thread executing `run`. -/
inductive WPC where
  | loopTop : WPC
  | inWait : WPC
  | done : WPC
deriving Repr, DecidableEq

/-- Small-step semantics of one worker running `run`: at the loop head
it exits iff `m_stop` is set, otherwise it moves into
`m_queuestat.wait()`; the wait completes only when the semaphore count
is positive, after which the whole iteration body runs (atomically,
under the queue mutex) and control returns to the loop head. -/
inductive WStep {τ : Type} : WPC × Pool τ → WPC × Pool τ → Prop where
  | exitLoop (s : Pool τ) : s.m_stop = true →
      WStep (.loopTop, s) (.done, s)
  | enterWait (s : Pool τ) : s.m_stop = false →
      WStep (.loopTop, s) (.inWait, s)
  | wakeAndRun (s : Pool τ) : 0 < s.m_queuestat →
      WStep (.inWait, s) (.loopTop, (dispatchIter s).1)

/-- A concrete pool used to instantiate theorems: capacity 4, a non-null
task ahead of a null one in the queue, semaphore in step with the
queue. -/
def examplePoolA : Pool Nat :=
  { m_max_requests := 4, m_workqueue := [some 7, none],
    m_queuestat := 2, m_stop := false }

/-- A concrete pool whose queue head is a null handle. -/
def examplePoolB : Pool Nat :=
  { m_max_requests := 2, m_workqueue := [none, some 4],
    m_queuestat := 2, m_stop := false }

/-- A concrete pool whose stop flag has been set. -/
def examplePoolC : Pool Nat :=
  { m_max_requests := 3, m_workqueue := [], m_queuestat := 0,
    m_stop := true }

theorem sysInv_init {τ : Type} (maxRequests : Nat) :
    SysInv maxRequests (initSys τ maxRequests) := by
  refine ⟨rfl, rfl, rfl, ?_, rfl⟩
  simp [initSys]

theorem sysInv_step {τ : Type} {maxRequests : Nat} {σ σ' : Sys τ}
    (hinv : SysInv maxRequests σ) (hstep : SysStep σ σ') :
    SysInv maxRequests σ' := by
  obtain ⟨hacc, hexe, hsem, hlen, hmax⟩ := hinv
  cases hstep with
  | submit t =>
      by_cases hfull : σ.pool.m_workqueue.length ≥ σ.pool.m_max_requests
      · have hs : submitSys σ t = σ := by
          simp [submitSys, append, hfull]
        rw [hs]
        exact ⟨hacc, hexe, hsem, hlen, hmax⟩
      · have hs : submitSys σ t =
            { σ with
                pool := { σ.pool with
                            m_workqueue := σ.pool.m_workqueue ++ [t],
                            m_queuestat := σ.pool.m_queuestat + 1 },
                accepted := σ.accepted ++ [t] } := by
          simp [submitSys, append, hfull]
        rw [hs]
        refine ⟨?_, hexe, ?_, ?_, hmax⟩
        · simp [hacc]
        · simp [hsem]
        · simp
          omega
  | dispatch hq =>
      rw [hsem] at hq
      obtain ⟨r, rest, hcons⟩ : ∃ r rest, σ.pool.m_workqueue = r :: rest := by
        cases hqq : σ.pool.m_workqueue with
        | nil => rw [hqq] at hq; simp at hq
        | cons r rest => exact ⟨r, rest, rfl⟩
      have hlen' : rest.length + 1 ≤ σ.pool.m_max_requests := by
        rw [hcons] at hlen
        simpa using hlen
      have hsem' : σ.pool.m_queuestat = rest.length + 1 := by
        rw [hsem, hcons]
        simp
      cases r with
      | none =>
          have hd : dispatchSys σ =
              { pool := { σ.pool with
                            m_workqueue := rest,
                            m_queuestat := σ.pool.m_queuestat - 1 },
                accepted := σ.accepted,
                dequeued := σ.dequeued ++ [none],
                executed := σ.executed } := by
            simp [dispatchSys, dispatchIter, hcons, dequeuedOf, executedOf]
          rw [hd]
          refine ⟨?_, ?_, ?_, ?_, hmax⟩
          · rw [hacc, hcons]
            simp
          · simp [hexe]
          · simp [hsem']
          · simpa using Nat.le_of_succ_le hlen'
      | some t =>
          have hd : dispatchSys σ =
              { pool := { σ.pool with
                            m_workqueue := rest,
                            m_queuestat := σ.pool.m_queuestat - 1 },
                accepted := σ.accepted,
                dequeued := σ.dequeued ++ [some t],
                executed := σ.executed ++ [t] } := by
            simp [dispatchSys, dispatchIter, hcons, dequeuedOf, executedOf]
          rw [hd]
          refine ⟨?_, ?_, ?_, ?_, hmax⟩
          · rw [hacc, hcons]
            simp
          · simp [hexe]
          · simp [hsem']
          · simpa using Nat.le_of_succ_le hlen'

theorem reach_inv {τ : Type} {maxRequests : Nat} {σ : Sys τ}
    (h : Reach τ maxRequests σ) : SysInv maxRequests σ := by
  induction h with
  | init => exact sysInv_init maxRequests
  | step _ hstep ih => exact sysInv_step ih hstep

/-- Counting occurrences through `filterMap id` on lists of options:
occurrences of `t` among the retained values are occurrences of
`some t` in the original list. -/
theorem count_filterMap_id {τ : Type} [DecidableEq τ]
    (l : List (Option τ)) (t : τ) :
    (l.filterMap id).count t = l.count (some t) := by
  induction l with
  | nil => simp
  | cons a l ih =>
      cases a with
      | none => simp [List.filterMap_cons, List.count_cons, ih]
      | some b => simp [List.filterMap_cons, List.count_cons, ih]

/-!
Claim theorems.
-/

/-- C2: for every reachable pool state and every task handle, `append`
returns false if and only if the queue holds exactly `m_max_requests`
tasks at the instant of the capacity check; in every other reachable
state it returns true.  (The source tests `size >= m_max_requests`; on
reachable states the queue never exceeds the capacity, so the test fires
exactly at equality.) -/
theorem submit_rejects_iff_full {τ : Type} {maxRequests : Nat} {σ : Sys τ}
    (h : Reach τ maxRequests σ) (t : Option τ) :
    (append σ.pool t).1 = false ↔
      σ.pool.m_workqueue.length = σ.pool.m_max_requests := by
  obtain ⟨-, -, -, hlen, -⟩ := reach_inv h
  by_cases hfull : σ.pool.m_workqueue.length ≥ σ.pool.m_max_requests
  · simp only [append, if_pos hfull]
    exact ⟨fun _ => by omega, fun _ => trivial⟩
  · simp only [append, if_neg hfull]
    exact ⟨fun hc => by simp at hc, fun he => absurd (le_of_eq he.symm) hfull⟩

theorem submit_rejects_iff_full_witness :
    (append (submitSys (initSys Nat 1) (some 3)).pool (some 7)).1 = false ↔
      (submitSys (initSys Nat 1) (some 3)).pool.m_workqueue.length =
        (submitSys (initSys Nat 1) (some 3)).pool.m_max_requests :=
  submit_rejects_iff_full
    (Reach.step Reach.init (SysStep.submit (initSys Nat 1) (some 3))) (some 7)

/-- C3: in every state reachable from a freshly constructed pool by any
sequence of submit and dispatch operations, the queue length is at most
`m_max_requests`. -/
theorem queue_never_exceeds_capacity {τ : Type} {maxRequests : Nat}
    {σ : Sys τ} (h : Reach τ maxRequests σ) :
    σ.pool.m_workqueue.length ≤ σ.pool.m_max_requests :=
  (reach_inv h).2.2.2.1

theorem queue_never_exceeds_capacity_witness :
    (submitSys (initSys Nat 2) (some 4)).pool.m_workqueue.length ≤
      (submitSys (initSys Nat 2) (some 4)).pool.m_max_requests :=
  queue_never_exceeds_capacity
    (Reach.step Reach.init (SysStep.submit (initSys Nat 2) (some 4)))

/-- C5: for every pool state whose queue holds fewer than
`m_max_requests` tasks, `append` appends the task at the tail of the
queue, increments the semaphore count by exactly one (the single
`post()`), and returns true. -/
theorem submit_enqueues_tail_and_posts {τ : Type} (s : Pool τ)
    (t : Option τ) (h : s.m_workqueue.length < s.m_max_requests) :
    append s t =
      (true, { s with m_workqueue := s.m_workqueue ++ [t],
                      m_queuestat := s.m_queuestat + 1 }) := by
  unfold append
  rw [if_neg (by omega)]

theorem submit_enqueues_tail_and_posts_witness :
    ({ m_max_requests := 3, m_workqueue := [some 1], m_queuestat := 1,
       m_stop := false } : Pool Nat).m_workqueue.length <
      ({ m_max_requests := 3, m_workqueue := [some 1], m_queuestat := 1,
         m_stop := false } : Pool Nat).m_max_requests ∧
    append ({ m_max_requests := 3, m_workqueue := [some 1],
              m_queuestat := 1, m_stop := false } : Pool Nat) (some 2) =
      (true, { m_max_requests := 3, m_workqueue := [some 1, some 2],
               m_queuestat := 2, m_stop := false }) :=
  ⟨by decide,
   (submit_enqueues_tail_and_posts
      ({ m_max_requests := 3, m_workqueue := [some 1], m_queuestat := 1,
         m_stop := false } : Pool Nat) (some 2) (by decide)).trans
     (by decide)⟩

/-- C6: in every state reachable by submit and dispatch steps, observed
outside the mutex-protected critical sections (the states of the atomic
transition system), the semaphore's counter equals the number of tasks
currently in the queue. -/
theorem sem_count_eq_queue_length {τ : Type} {maxRequests : Nat}
    {σ : Sys τ} (h : Reach τ maxRequests σ) :
    σ.pool.m_queuestat = σ.pool.m_workqueue.length :=
  (reach_inv h).2.2.1

theorem sem_count_eq_queue_length_witness :
    (submitSys (initSys Nat 2) (some 6)).pool.m_queuestat =
      (submitSys (initSys Nat 2) (some 6)).pool.m_workqueue.length :=
  sem_count_eq_queue_length
    (Reach.step Reach.init (SysStep.submit (initSys Nat 2) (some 6)))

/-- C7: constructing the pool fails with the configuration error (the
`std::exception` thrown at the parameter check, named `ConfigError` by
the spec) exactly when `thread_number <= 0` or `max_requests <= 0`, and
on that path zero worker threads are created; for positive arguments the
parameter check does not fail and the constructor returns the initial
pool after creating `thread_number` threads. -/
theorem ctor_rejects_nonpositive (τ : Type)
    (thread_number max_requests : Int) :
    (threadpoolNew τ thread_number max_requests =
        (.error .configError, 0) ↔
      thread_number ≤ 0 ∨ max_requests ≤ 0) ∧
    (0 < thread_number → 0 < max_requests →
      threadpoolNew τ thread_number max_requests =
        (.ok { m_max_requests := max_requests.toNat, m_workqueue := [],
               m_queuestat := 0, m_stop := false },
         thread_number.toNat)) := by
  by_cases hbad : thread_number ≤ 0 ∨ max_requests ≤ 0
  · refine ⟨⟨fun _ => hbad, fun _ => ?_⟩, fun h1 h2 => absurd hbad (by omega)⟩
    simp only [threadpoolNew, if_pos hbad]
  · refine ⟨⟨fun he => ?_, fun hb => absurd hb hbad⟩, fun h1 h2 => ?_⟩
    · simp only [threadpoolNew, if_neg hbad] at he
      simp at he
    · simp only [threadpoolNew, if_neg hbad]

theorem ctor_rejects_nonpositive_witness :
    threadpoolNew Nat 0 5 = (.error .configError, 0) :=
  (ctor_rejects_nonpositive Nat 0 5).1.mpr (Or.inl (by decide))

/-- C1: along every reachable execution, for every task, the number of
times the task has been executed plus the number of copies of it still
sitting in the queue equals the number of times a submit of it returned
true — so no accepted task is lost and none is executed twice, and once
the queue has drained, every accepted task has been executed exactly as
often as it was accepted (exactly once when it was accepted once).  This
holds for all submission sequences, in particular those in which the
number of outstanding tasks never exceeds the capacity. -/
theorem accepted_executed_exactly_once {τ : Type} [DecidableEq τ]
    {maxRequests : Nat} {σ : Sys τ} (h : Reach τ maxRequests σ) (t : τ) :
    σ.executed.count t + σ.pool.m_workqueue.count (some t) =
      σ.accepted.count (some t) ∧
    (σ.pool.m_workqueue = [] →
      σ.executed.count t = σ.accepted.count (some t)) := by
  obtain ⟨hacc, hexe, -, -, -⟩ := reach_inv h
  have hmain : σ.executed.count t + σ.pool.m_workqueue.count (some t) =
      σ.accepted.count (some t) := by
    rw [hacc, List.count_append, hexe, count_filterMap_id]
  exact ⟨hmain, fun hq => by simpa [hq] using hmain⟩

theorem accepted_executed_exactly_once_witness :
    (dispatchSys (submitSys (initSys Nat 2) (some 5))).executed.count 5 +
      (dispatchSys (submitSys (initSys Nat 2)
        (some 5))).pool.m_workqueue.count (some 5) =
      (dispatchSys (submitSys (initSys Nat 2)
        (some 5))).accepted.count (some 5) ∧
    ((dispatchSys (submitSys (initSys Nat 2)
        (some 5))).pool.m_workqueue = [] →
      (dispatchSys (submitSys (initSys Nat 2)
        (some 5))).executed.count 5 =
      (dispatchSys (submitSys (initSys Nat 2)
        (some 5))).accepted.count (some 5)) :=
  accepted_executed_exactly_once
    (Reach.step
      (Reach.step Reach.init (SysStep.submit (initSys Nat 2) (some 5)))
      (SysStep.dispatch (submitSys (initSys Nat 2) (some 5)) (by decide)))
    5

/-- C4: along every reachable execution the handles dequeued so far,
in dequeue order, followed by the current queue, are exactly the
accepted handles in acceptance order (collective FIFO); moreover every
accepting `append` inserts at the tail, and every dispatch iteration on
a non-empty queue removes exactly the head. -/
theorem fifo_queue_discipline {τ : Type} {maxRequests : Nat} {σ : Sys τ}
    (h : Reach τ maxRequests σ) (s : Pool τ) (t r : Option τ)
    (rest : List (Option τ)) (hok : (append s t).1 = true)
    (hq : s.m_workqueue = r :: rest) :
    σ.accepted = σ.dequeued ++ σ.pool.m_workqueue ∧
    (append s t).2.m_workqueue = s.m_workqueue ++ [t] ∧
    (dispatchIter s).1.m_workqueue = rest ∧
    dequeuedOf (dispatchIter s).2 = [r] := by
  refine ⟨(reach_inv h).1, ?_, ?_, ?_⟩
  · by_cases hfull : s.m_workqueue.length ≥ s.m_max_requests
    · simp only [append, if_pos hfull] at hok
      simp at hok
    · simp only [append, if_neg hfull]
  · cases r with
    | none => simp [dispatchIter, hq]
    | some x => simp [dispatchIter, hq]
  · cases r with
    | none => simp [dispatchIter, hq, dequeuedOf]
    | some x => simp [dispatchIter, hq, dequeuedOf]

theorem fifo_queue_discipline_witness :
    (dispatchSys (submitSys (submitSys (initSys Nat 3) (some 1))
        (some 2))).accepted =
      (dispatchSys (submitSys (submitSys (initSys Nat 3) (some 1))
        (some 2))).dequeued ++
      (dispatchSys (submitSys (submitSys (initSys Nat 3) (some 1))
        (some 2))).pool.m_workqueue ∧
    (append examplePoolA (some 9)).2.m_workqueue =
      examplePoolA.m_workqueue ++ [some 9] ∧
    (dispatchIter examplePoolA).1.m_workqueue = [none] ∧
    dequeuedOf (dispatchIter examplePoolA).2 = [some 7] :=
  fifo_queue_discipline
    (Reach.step
      (Reach.step
        (Reach.step Reach.init (SysStep.submit (initSys Nat 3) (some 1)))
        (SysStep.submit (submitSys (initSys Nat 3) (some 1)) (some 2)))
      (SysStep.dispatch
        (submitSys (submitSys (initSys Nat 3) (some 1)) (some 2))
        (by decide)))
    examplePoolA (some 9) (some 7) [none] (by decide) rfl

/-- C8: whenever a worker dequeues a null task handle (the queue head is
null), the iteration removes it from the queue, executes nothing, raises
no error (the iteration is the total function `dispatchIter`), and
control returns to the top of the dispatch loop. -/
theorem null_task_silently_discarded {τ : Type} (s : Pool τ)
    (rest : List (Option τ)) (hq : s.m_workqueue = none :: rest)
    (hsem : 0 < s.m_queuestat) :
    dispatchIter s =
      ({ s with m_workqueue := rest, m_queuestat := s.m_queuestat - 1 },
       .nullSkipped) ∧
    executedOf (dispatchIter s).2 = [] ∧
    WStep (.inWait, s) (.loopTop, (dispatchIter s).1) := by
  have hd : dispatchIter s =
      ({ s with m_workqueue := rest, m_queuestat := s.m_queuestat - 1 },
       .nullSkipped) := by
    simp [dispatchIter, hq]
  exact ⟨hd, by rw [hd]; rfl, WStep.wakeAndRun s hsem⟩

theorem null_task_silently_discarded_witness :
    dispatchIter examplePoolB =
      ({ examplePoolB with
           m_workqueue := [some 4],
           m_queuestat := examplePoolB.m_queuestat - 1 },
       .nullSkipped) ∧
    executedOf (dispatchIter examplePoolB).2 = [] ∧
    WStep (.inWait, examplePoolB) (.loopTop, (dispatchIter examplePoolB).1) :=
  null_task_silently_discarded examplePoolB [some 4] rfl (by decide)

/-- C9: every terminating transition of a worker happens at the top of
the dispatch loop with the stop flag set, and every transition out of
`m_queuestat.wait()` requires a positive semaphore count and completes
the whole iteration back to the loop top — so a worker blocked in the
wait with no pending semaphore token never observes the stop flag and
never terminates through the stop-flag path, and a worker never exits
between a wait return and the completion of that iteration. -/
theorem stop_flag_only_at_loop_top {τ : Type} {pc pc' : WPC}
    {s s' : Pool τ} (h : WStep (pc, s) (pc', s')) :
    (pc' = .done → pc = .loopTop ∧ s.m_stop = true) ∧
    (pc = .inWait →
      0 < s.m_queuestat ∧ pc' = .loopTop ∧ s' = (dispatchIter s).1) := by
  cases h with
  | exitLoop s hstop =>
      exact ⟨fun _ => ⟨rfl, hstop⟩, fun hc => by simp at hc⟩
  | enterWait s hstop =>
      exact ⟨fun hc => by simp at hc, fun hc => by simp at hc⟩
  | wakeAndRun s hsem =>
      exact ⟨fun hc => by simp at hc, fun _ => ⟨hsem, rfl, rfl⟩⟩

theorem stop_flag_only_at_loop_top_witness :
    (WPC.done = WPC.done →
      WPC.loopTop = WPC.loopTop ∧ examplePoolC.m_stop = true) ∧
    (WPC.loopTop = WPC.inWait →
      0 < examplePoolC.m_queuestat ∧ WPC.done = WPC.loopTop ∧
      examplePoolC = (dispatchIter examplePoolC).1) :=
  stop_flag_only_at_loop_top (WStep.exitLoop examplePoolC rfl)

/-- C10: `append` performs no validation of the task handle: in every
pool state whose queue holds fewer than `m_max_requests` tasks,
`append` with the null handle returns true and enqueues the null handle
at the tail like any task, growing the queue by one (it counts toward
capacity); the null handle is only discarded later, by the dispatch
iteration that finds it at the head, which executes nothing. -/
theorem submit_null_no_validation {τ : Type} (s s' : Pool τ)
    (rest : List (Option τ))
    (h : s.m_workqueue.length < s.m_max_requests)
    (hq : s'.m_workqueue = none :: rest) :
    append s none =
      (true, { s with m_workqueue := s.m_workqueue ++ [none],
                      m_queuestat := s.m_queuestat + 1 }) ∧
    (append s none).2.m_workqueue.length = s.m_workqueue.length + 1 ∧
    executedOf (dispatchIter s').2 = [] ∧
    (dispatchIter s').1.m_workqueue = rest := by
  have ha : append s none =
      (true, { s with m_workqueue := s.m_workqueue ++ [none],
                      m_queuestat := s.m_queuestat + 1 }) := by
    unfold append
    rw [if_neg (by omega)]
  refine ⟨ha, ?_, ?_, ?_⟩
  · rw [ha]
    simp
  · simp [dispatchIter, hq, executedOf]
  · simp [dispatchIter, hq]

theorem submit_null_no_validation_witness :
    append (initSys Nat 1).pool none =
      (true, { (initSys Nat 1).pool with
                 m_workqueue := (initSys Nat 1).pool.m_workqueue ++ [none],
                 m_queuestat := (initSys Nat 1).pool.m_queuestat + 1 }) ∧
    (append (initSys Nat 1).pool none).2.m_workqueue.length =
      (initSys Nat 1).pool.m_workqueue.length + 1 ∧
    executedOf (dispatchIter examplePoolB).2 = [] ∧
    (dispatchIter examplePoolB).1.m_workqueue = [some 4] :=
  submit_null_no_validation (initSys Nat 1).pool examplePoolB [some 4]
    (by decide) rfl
